import Mathlib

/-!
Verification of the reliable-UDP file-transfer programs (Variant A:
selective repeat, `part1/p1_server.py`; Variant B: Reno + SACK,
`part2/p2_server.py` and `part2/p2_client.py`) against their
specification.  The Python code is shallowly embedded: byte strings are
`List ℕ`, Python dicts are association lists in insertion order, machine
floats used for times and the congestion window are `ℚ`, and Python's
`int()` truncation is modelled explicitly.
-/

/-- Protocol constant `UDP_MAX = 1200`. -/
def UDP_MAX : ℕ := 1200

/-- Protocol constant `HEADER_LEN = 20`. -/
def HEADER_LEN : ℕ := 20

/-- Protocol constant `DATA_PAYLOAD = UDP_MAX - HEADER_LEN = 1180`. -/
def DATA_PAYLOAD : ℕ := UDP_MAX - HEADER_LEN

/-- Protocol constant `MSS = UDP_MAX = 1200`. -/
def MSS : ℕ := UDP_MAX

/-- RTO constant `ALPHA = 0.125`. -/
def ALPHA : ℚ := 1/8

/-- RTO constant `BETA = 0.25`. -/
def BETA : ℚ := 1/4

/-- Big-endian 32-bit read, `struct.unpack` on a 4-byte slice. -/
def fromBE4 : List ℕ → ℕ
  | [a, b, c, d] => ((a * 256 + b) * 256 + c) * 256 + d
  | _ => 0

/-- Python `int()` on a nonnegative-or-negative rational: truncation
toward zero, matching CPython's `int(float)`. -/
def pyInt (q : ℚ) : ℤ := q.num.tdiv q.den

/- ------------------------------------------------------------------ -/
/- Receiver (part2/p2_client.py)                                       -/
/- ------------------------------------------------------------------ -/

/-- State of `Receiver` (p2_client.py): the out-of-order buffer `buffered`
(seq → payload, insertion order), `next_expected`, the EOF bookkeeping,
the timeout counter, and the bytes written so far to the output file. -/
structure RecvState where
  buffered : List (ℕ × List ℕ)
  next_expected : ℕ
  saw_eof : Bool
  eof_seq : Option ℕ
  consecutive_timeouts : ℕ
  out : List ℕ
  deriving DecidableEq, Repr

/-- The receiver's initial state (`Receiver.__init__`). -/
def initRecv : RecvState :=
  { buffered := [], next_expected := 0, saw_eof := false,
    eof_seq := none, consecutive_timeouts := 0, out := [] }

/-- Embeds `Receiver._parse_packet`: reject fragments shorter than the header,
read the big-endian sequence number, strip the header, detect EOF. -/
def parsePacket (pkt : List ℕ) : Option (ℕ × List ℕ × Bool) :=
  if pkt.length < HEADER_LEN then none
  else
    let seq := fromBE4 (pkt.take 4)
    let payload := pkt.drop HEADER_LEN
    if payload = [69, 79, 70] then some (seq, [], true)
    else some (seq, payload, false)

/-- Python `dict.pop(k)` on an association list: remove the entry with
key `k`, returning its value and the rest of the list. -/
def popKey (k : ℕ) : List (ℕ × List ℕ) → Option (List ℕ × List (ℕ × List ℕ))
  | [] => none
  | (s, d) :: rest =>
      if s = k then some (d, rest)
      else
        match popKey k rest with
        | none => none
        | some (v, rest') => some (v, (s, d) :: rest')

theorem popKey_length {k : ℕ} : ∀ {l : List (ℕ × List ℕ)} {v rest},
    popKey k l = some (v, rest) → rest.length + 1 = l.length := by
  intro l
  induction l with
  | nil => intro v rest h; simp [popKey] at h
  | cons e tl ih =>
      intro v rest h
      by_cases he : e.1 = k
      · simp [popKey, he] at h
        simp [← h.2]
      · simp only [popKey, he, if_false] at h
        cases htl : popKey k tl with
        | none => rw [htl] at h; simp at h
        | some pr =>
            rw [htl] at h
            cases pr with
            | mk v' rest' =>
                simp at h
                have := ih htl
                simp [← h.2, ← this]

theorem popKey_mem {k : ℕ} : ∀ {l : List (ℕ × List ℕ)} {v rest},
    popKey k l = some (v, rest) →
    (k, v) ∈ l ∧ ∀ e ∈ rest, e ∈ l := by
  intro l
  induction l with
  | nil => intro v rest h; simp [popKey] at h
  | cons e tl ih =>
      intro v rest h
      by_cases he : e.1 = k
      · simp [popKey, he] at h
        refine ⟨?_, ?_⟩
        · have hev : e = (k, v) := by
            cases e with
            | mk a b =>
                simp only [] at he
                simp only [Prod.mk.injEq]
                exact ⟨he, h.1⟩
          rw [← hev]
          exact List.mem_cons_self _ _
        · intro x hx
          rw [← h.2] at hx
          exact List.mem_cons_of_mem _ hx
      · simp only [popKey, he, if_false] at h
        cases htl : popKey k tl with
        | none => rw [htl] at h; simp at h
        | some pr =>
            rw [htl] at h
            cases pr with
            | mk v' rest' =>
                simp at h
                have hm := ih htl
                constructor
                · exact List.mem_cons_of_mem _ (h.1 ▸ hm.1)
                · intro x hx
                  rw [← h.2] at hx
                  rcases List.mem_cons.1 hx with h1 | h1
                  · rw [h1]; exact List.mem_cons_self _ _
                  · exact List.mem_cons_of_mem _ (hm.2 x h1)

/-- Embeds `Receiver._drain_inorder_buffer`: repeatedly pop the entry at
`next_expected`, append it to the output file, advance `next_expected`. -/
def drainInorder (st : RecvState) : RecvState :=
  match h : popKey st.next_expected st.buffered with
  | none => st
  | some (piece, rest) =>
      drainInorder { st with
        out := st.out ++ piece,
        next_expected := st.next_expected + piece.length,
        buffered := rest }
termination_by st.buffered.length
decreasing_by
  have := popKey_length h
  omega

/-- Python `dict.setdefault(k, v)`: insert at the end only when the key
is absent. -/
def setdefault (k : ℕ) (v : List ℕ) (l : List (ℕ × List ℕ)) :
    List (ℕ × List ℕ) :=
  if l.any (fun e => e.1 = k) then l else l ++ [(k, v)]

/-- Ascending insertion of a key into a sorted list (used to model
Python `sorted`). -/
def insortNat (x : ℕ) : List ℕ → List ℕ
  | [] => [x]
  | y :: ys => if x ≤ y then x :: y :: ys else y :: insortNat x ys

/-- Python `sorted` on the buffer's keys (ascending). -/
def sortNat (l : List ℕ) : List ℕ := l.foldr insortNat []

/-- Length of the payload stored under key `s` (`len(self.buffered[s])`). -/
def lookupLen (buffered : List (ℕ × List ℕ)) (s : ℕ) : ℕ :=
  match buffered.find? (fun e => e.1 = s) with
  | some e => e.2.length
  | none => 0

/-- The scanned segments `(s, s + len(buffered[s]))` in ascending key
order, as visited by the loop of `_get_sack_blocks`. -/
def segEnds (buffered : List (ℕ × List ℕ)) : List (ℕ × ℕ) :=
  (sortNat (buffered.map Prod.fst)).map (fun s => (s, s + lookupLen buffered s))

/-- The loop body of `Receiver._get_sack_blocks`, including the
`break` once two blocks have been appended: returns the accumulated
`blocks` and the current open run when the loop exits. -/
def sackScan : List (ℕ × ℕ) → List (ℕ × ℕ) → Option (ℕ × ℕ) →
    List (ℕ × ℕ) × Option (ℕ × ℕ)
  | [], blocks, cur => (blocks, cur)
  | (s, e) :: rest, blocks, cur =>
      let step : List (ℕ × ℕ) × Option (ℕ × ℕ) :=
        match cur with
        | none => (blocks, some (s, e))
        | some (cs, ce) =>
            if s ≤ ce then (blocks, some (cs, max ce e))
            else (blocks ++ [(cs, ce)], some (s, e))
      if 2 ≤ step.1.length then step
      else sackScan rest step.1 step.2

/-- The epilogue of `_get_sack_blocks`: append the open run when fewer
than two blocks were closed, then `blocks[:2]`. -/
def sackFinish (p : List (ℕ × ℕ) × Option (ℕ × ℕ)) : List (ℕ × ℕ) :=
  (match p.2 with
   | some c => if p.1.length < 2 then p.1 ++ [c] else p.1
   | none => p.1).take 2

/-- Embeds `Receiver._get_sack_blocks`: up to two SACK blocks coalesced from the
out-of-order buffer. -/
def getSackBlocks (buffered : List (ℕ × List ℕ)) : List (ℕ × ℕ) :=
  if buffered = [] then []
  else sackFinish (sackScan (segEnds buffered) [] none)

/-- Maximal coalescing of an ascending segment list into half-open runs,
continuing the run `(cs, ce)`. Written from the spec's words: "coalescing
adjacent or overlapping segments into runs `[start, end)`". -/
def runsAux : ℕ × ℕ → List (ℕ × ℕ) → List (ℕ × ℕ)
  | cur, [] => [cur]
  | (cs, ce), (s, e) :: rest =>
      if s ≤ ce then runsAux (cs, max ce e) rest
      else (cs, ce) :: runsAux (s, e) rest

/-- All maximal runs of an ascending segment list (spec description of
SACK synthesis; compared against the code's `getSackBlocks`). -/
def runs : List (ℕ × ℕ) → List (ℕ × ℕ)
  | [] => []
  | c :: rest => runsAux c rest

/-- Embeds `Receiver._handle_packet_recv` acting on the receiver state; the
second component is the ACK `(next_expected, sack_blocks)` emitted by
`_send_ack`, `none` when the packet was malformed and dropped. -/
def handlePacketRecv (pkt : List ℕ) (st : RecvState) :
    RecvState × Option (ℕ × List (ℕ × ℕ)) :=
  let st0 := { st with consecutive_timeouts := 0 }
  match parsePacket pkt with
  | none => (st0, none)
  | some (seq, data, eflag) =>
      let st1 :=
        if eflag then { st0 with saw_eof := true, eof_seq := some seq }
        else if data.isEmpty then st0
        else if seq = st0.next_expected then
          drainInorder { st0 with
            out := st0.out ++ data,
            next_expected := st0.next_expected + data.length }
        else if st0.next_expected < seq then
          { st0 with buffered := setdefault seq data st0.buffered }
        else st0
      (st1, some (st1.next_expected, getSackBlocks st1.buffered))

theorem sackScan_runsAux : ∀ (rest : List (ℕ × ℕ)) (blocks : List (ℕ × ℕ))
    (c : ℕ × ℕ), blocks.length < 2 →
    sackFinish (sackScan rest blocks (some c)) = (blocks ++ runsAux c rest).take 2 := by
  intro rest
  induction rest with
  | nil =>
      intro blocks c h
      simp [sackScan, sackFinish, runsAux, h]
  | cons se rest' ih =>
      intro blocks c h
      cases se with
      | mk s e =>
          cases c with
          | mk cs ce =>
              by_cases hse : s ≤ ce
              · have hnb : ¬ 2 ≤ blocks.length := by omega
                simp only [sackScan, hse, if_true, hnb, if_false]
                rw [ih blocks (cs, max ce e) h]
                simp only [runsAux, hse, if_true]
              · simp only [sackScan, hse, if_false]
                by_cases hb : 2 ≤ (blocks ++ [(cs, ce)]).length
                · simp only [hb, if_true]
                  have hb' : blocks.length + 1 ≥ 2 := by simpa using hb
                  have hb1 : blocks.length = 1 := by omega
                  obtain ⟨b, rfl⟩ := List.length_eq_one.1 hb1
                  simp [sackFinish, runsAux, hse]
                · simp only [hb, if_false]
                  have hb' : ¬ blocks.length + 1 ≥ 2 := by simpa using hb
                  have hb0 : blocks.length = 0 := by omega
                  obtain rfl := List.length_eq_zero.1 hb0
                  rw [ih ([] ++ [(cs, ce)]) (s, e) (by simp)]
                  simp only [runsAux, hse, if_false]
                  simp

/-- Claim C7: the SACK blocks emitted by the Variant B receiver are
exactly the first two maximal half-open runs obtained by scanning the
out-of-order buffer's keys in ascending order and coalescing adjacent or
overlapping segments (fewer blocks when fewer runs exist, none when the
buffer is empty). -/
theorem C7_sack_blocks (buffered : List (ℕ × List ℕ)) :
    getSackBlocks buffered = (runs (segEnds buffered)).take 2 := by
  by_cases hb : buffered = []
  · subst hb
    simp [getSackBlocks, segEnds, sortNat, runs]
  · rw [getSackBlocks, if_neg hb]
    cases hs : segEnds buffered with
    | nil => simp [sackScan, sackFinish, runs]
    | cons c rest =>
        cases c with
        | mk s e =>
            simp only [sackScan, List.length_nil]
            rw [if_neg (by omega)]
            rw [sackScan_runsAux rest [] (s, e) (by simp)]
            simp [runs]

/- ------------------------------------------------------------------ -/
/- Receiver invariants (claim C5)                                      -/
/- ------------------------------------------------------------------ -/

/-- The bytes of the sender's stream at offsets `[s, s + n)`. -/
def streamSlice (stream : List ℕ) (s n : ℕ) : List ℕ :=
  (stream.drop s).take n

/-- Every buffered entry holds exactly the stream bytes at its key, and
is nonempty (the receiver only buffers nonempty payloads). -/
def goodBuf (stream : List ℕ) (l : List (ℕ × List ℕ)) : Prop :=
  ∀ e ∈ l, e.2 = streamSlice stream e.1 e.2.length ∧ e.2 ≠ []

/-- Receiver invariant: the output file is exactly the contiguous prefix
`[0, next_expected)` of the stream, `next_expected` does not exceed the
stream, and the out-of-order buffer is consistent with the stream. -/
def recvInv (stream : List ℕ) (st : RecvState) : Prop :=
  st.out = stream.take st.next_expected ∧
  st.next_expected ≤ stream.length ∧
  goodBuf stream st.buffered

theorem streamSlice_length_le {stream : List ℕ} {s : ℕ} {d : List ℕ}
    (h : d = streamSlice stream s d.length) : s + d.length ≤ stream.length ∨ d.length = 0 := by
  rcases Nat.eq_zero_or_pos d.length with h0 | h0
  · right; exact h0
  · left
    have hl : d.length = min d.length (stream.length - s) := by
      conv_lhs => rw [h]
      simp [streamSlice]
    rcases Nat.le_total d.length (stream.length - s) with hle | hle
    · omega
    · rw [min_eq_right hle] at hl
      omega

theorem drainInorder_inv (stream : List ℕ) :
    ∀ st : RecvState, recvInv stream st →
    recvInv stream (drainInorder st) ∧
    st.next_expected ≤ (drainInorder st).next_expected := by
  intro st
  generalize hn : st.buffered.length = n
  induction n using Nat.strong_induction_on generalizing st with
  | _ n ih =>
      intro hInv
      rw [drainInorder]
      cases hp : popKey st.next_expected st.buffered with
      | none => exact ⟨hInv, le_refl _⟩
      | some pr =>
          cases pr with
          | mk piece rest =>
              have hmem := popKey_mem hp
              have hgood := hInv.2.2 _ hmem.1
              have hslice : piece = streamSlice stream st.next_expected piece.length :=
                hgood.1
              have hlen : st.next_expected + piece.length ≤ stream.length := by
                rcases streamSlice_length_le hslice with h1 | h1
                · exact h1
                · have : piece = [] := List.length_eq_zero.1 h1
                  exact absurd this hgood.2
              have hInv' : recvInv stream
                  { st with out := st.out ++ piece,
                            next_expected := st.next_expected + piece.length,
                            buffered := rest } := by
                refine ⟨?_, ?_, ?_⟩
                · show st.out ++ piece = stream.take (st.next_expected + piece.length)
                  rw [hInv.1, List.take_add]
                  congr 1
                · exact hlen
                · intro e he
                  exact hInv.2.2 e (hmem.2 e he)
              have hdec : rest.length < n := by
                have := popKey_length hp
                omega
              have := ih rest.length hdec _ rfl hInv'
              refine ⟨this.1, ?_⟩
              refine le_trans ?_ this.2
              simp

/-- Claim C5: after the Variant B receiver processes any data packet that
carries the sender's stream bytes at its sequence offset, `next_expected`
equals the total number of bytes written to the output file, the output
is exactly the contiguous prefix `[0, next_expected)` of the stream, and
writing is append-only, so no byte at offset `k` is written before all
offsets below `k`. -/
theorem C5_receiver_prefix (stream pkt : List ℕ) (st : RecvState)
    (seq : ℕ) (data : List ℕ) (eflag : Bool)
    (hInv : recvInv stream st)
    (hparse : parsePacket pkt = some (seq, data, eflag))
    (hdata : eflag = false → data = streamSlice stream seq data.length) :
    recvInv stream (handlePacketRecv pkt st).1 ∧
    (handlePacketRecv pkt st).1.out.length = (handlePacketRecv pkt st).1.next_expected ∧
    st.next_expected ≤ (handlePacketRecv pkt st).1.next_expected ∧
    (handlePacketRecv pkt st).1.out.take st.out.length = st.out := by
  have hcore : recvInv stream (handlePacketRecv pkt st).1 ∧
      st.next_expected ≤ (handlePacketRecv pkt st).1.next_expected := by
    simp only [handlePacketRecv, hparse]
    cases eflag with
    | true => exact ⟨hInv, le_refl _⟩
    | false =>
        simp only [if_false, Bool.false_eq_true]
        by_cases hempty : data.isEmpty
        · simp only [hempty, if_true]
          exact ⟨hInv, le_refl _⟩
        · simp only [hempty, if_false]
          have hdl : data = streamSlice stream seq data.length := hdata rfl
          by_cases hseq : seq = st.next_expected
          · simp only [hseq, if_pos rfl]
            have hlen : st.next_expected + data.length ≤ stream.length := by
              rcases streamSlice_length_le (hseq ▸ hdl) with h1 | h1
              · exact h1
              · have : data = [] := List.length_eq_zero.1 h1
                rw [this] at hempty
                simp [List.isEmpty] at hempty
            have hInv2 : recvInv stream
                { st with consecutive_timeouts := 0,
                          out := st.out ++ data,
                          next_expected := st.next_expected + data.length } := by
              refine ⟨?_, hlen, ?_⟩
              · show st.out ++ data = stream.take (st.next_expected + data.length)
                rw [hInv.1, List.take_add]
                congr 1
                exact hseq ▸ hdl
              · exact hInv.2.2
            have hd := drainInorder_inv stream _ hInv2
            refine ⟨hd.1, ?_⟩
            refine le_trans ?_ hd.2
            simp
          · rw [if_neg hseq]
            by_cases hgt : st.next_expected < seq
            · simp only [hgt, if_true]
              refine ⟨⟨hInv.1, hInv.2.1, ?_⟩, le_refl _⟩
              intro e he
              rw [setdefault] at he
              by_cases hany : (st.buffered.any (fun e => e.1 = seq)) = true
              · rw [if_pos hany] at he
                exact hInv.2.2 e he
              · rw [if_neg hany] at he
                rcases List.mem_append.1 he with h1 | h1
                · exact hInv.2.2 e h1
                · have : e = (seq, data) := by simpa using h1
                  subst this
                  refine ⟨hdl, ?_⟩
                  intro hnil
                  have hnil' : data = [] := hnil
                  rw [hnil'] at hempty
                  simp [List.isEmpty] at hempty
            · simp only [hgt, if_false]
              exact ⟨hInv, le_refl _⟩
  have hlen2 : (handlePacketRecv pkt st).1.out.length =
      (handlePacketRecv pkt st).1.next_expected := by
    rw [hcore.1.1, List.length_take]
    exact min_eq_left hcore.1.2.1
  refine ⟨hcore.1, hlen2, hcore.2, ?_⟩
  have hst : st.out.length = st.next_expected := by
    rw [hInv.1, List.length_take]
    exact min_eq_left hInv.2.1
  rw [hst, hcore.1.1, List.take_take, min_eq_left hcore.2, hInv.1]

/-- Claim C10: a well-formed non-EOF data packet with empty payload
(exactly 20 bytes long) leaves `next_expected`, the out-of-order buffer
and the output file unchanged regardless of its sequence number, yet the
receiver still answers with an ACK carrying the current `next_expected`
and the current SACK blocks. -/
theorem C10_empty_payload (st : RecvState) (pkt : List ℕ)
    (h : pkt.length = HEADER_LEN) :
    handlePacketRecv pkt st =
      ({ st with consecutive_timeouts := 0 },
       some (st.next_expected, getSackBlocks st.buffered)) := by
  have hdrop : pkt.drop HEADER_LEN = [] := by
    apply List.drop_eq_nil_of_le
    omega
  have hparse : parsePacket pkt = some (fromBE4 (pkt.take 4), [], false) := by
    rw [parsePacket, if_neg (by omega)]
    simp [hdrop]
  simp [handlePacketRecv, hparse]

/-- Witness for C10 at a concrete 20-byte packet and the initial state. -/
theorem C10_empty_payload_witness :
    handlePacketRecv (List.replicate 20 0) initRecv =
      ({ initRecv with consecutive_timeouts := 0 },
       some (initRecv.next_expected, getSackBlocks initRecv.buffered)) :=
  C10_empty_payload initRecv (List.replicate 20 0) (by decide)

/- ------------------------------------------------------------------ -/
/- Variant B sender (part2/p2_server.py)                               -/
/- ------------------------------------------------------------------ -/

/-- One in-flight segment of the Variant B sender: the dict entry
`seq -> (payload, last_sent_time, first_sent_time)`. -/
structure Seg where
  seq : ℕ
  payload : List ℕ
  last_sent : ℚ
  first_sent : ℚ
  deriving DecidableEq, Repr

/-- State of `ReliableServer` (p2_server.py): congestion-control state,
window-manager state and RTO-estimator state. -/
structure SenderState where
  cwnd : ℚ
  ssthresh : ℚ
  in_slow_start : Bool
  acked_bytes_this_rtt : ℕ
  inflight : List Seg
  base : ℕ
  next_seq : ℕ
  sack_blocks : List (ℕ × ℕ)
  dup_count : ℕ
  last_ack : ℕ
  rtt_estimate : Option ℚ
  rtt_dev : Option ℚ
  rto : ℚ
  deriving DecidableEq, Repr

/-- The sender's initial state (`ReliableServer.__init__`):
`cwnd = MSS`, `ssthresh = 1000*MSS`, slow start, empty window, RTO 1 s. -/
def initSender : SenderState :=
  { cwnd := (MSS : ℚ), ssthresh := 1000 * (MSS : ℚ), in_slow_start := true,
    acked_bytes_this_rtt := 0, inflight := [], base := 0, next_seq := 0,
    sack_blocks := [], dup_count := 0, last_ack := 0,
    rtt_estimate := none, rtt_dev := none, rto := 1 }

/-- Embeds `ReliableServer._observe_rtt`: EWMA RTT estimation and RTO clamping
to `[0.2 s, 3.0 s]`. -/
def observeRtt (sample : ℚ) (st : SenderState) : SenderState :=
  if sample ≤ 0 then st
  else
    match st.rtt_estimate with
    | none =>
        let est := sample
        let dev := sample / 2
        let rto0 := est + max (1/100) (4 * dev)
        { st with rtt_estimate := some est, rtt_dev := some dev,
                  rto := max (1/5) (min rto0 3) }
    | some est0 =>
        let dev0 := st.rtt_dev.getD 0
        let dev := (1 - BETA) * dev0 + BETA * |est0 - sample|
        let est := (1 - ALPHA) * est0 + ALPHA * sample
        let rto0 := est + max (1/100) (4 * dev)
        { st with rtt_estimate := some est, rtt_dev := some dev,
                  rto := max (1/5) (min rto0 3) }

/-- Embeds `ReliableServer._on_new_ack`: slow start adds the ACKed bytes and
leaves slow start once `cwnd >= ssthresh`; congestion avoidance adds
`(MSS*MSS*2)/cwnd`; both capped at `10000*MSS`. -/
def onNewAck (bytesAcked : ℕ) (st : SenderState) : SenderState :=
  if st.in_slow_start then
    let c := st.cwnd + (bytesAcked : ℚ)
    { st with cwnd := min c (10000 * (MSS : ℚ)),
              in_slow_start := decide (c < st.ssthresh) }
  else
    { st with cwnd := min (st.cwnd + ((MSS : ℚ) * MSS * 2) / st.cwnd)
                          (10000 * (MSS : ℚ)) }

/-- Embeds `ReliableServer._on_timeout`: halve into `ssthresh` (floored at
`2*MSS`), collapse `cwnd` to one MSS, re-enter slow start. -/
def onTimeout (st : SenderState) : SenderState :=
  { st with ssthresh := max (st.cwnd / 2) (2 * (MSS : ℚ)),
            cwnd := (MSS : ℚ), in_slow_start := true,
            acked_bytes_this_rtt := 0 }

/-- Embeds `ReliableServer._on_fast_retransmit`: `ssthresh := max(cwnd/2, 2*MSS)`,
`cwnd := ssthresh`, leave slow start. -/
def onFastRetransmit (st : SenderState) : SenderState :=
  let th := max (st.cwnd / 2) (2 * (MSS : ℚ))
  { st with ssthresh := th, cwnd := th, in_slow_start := false,
            acked_bytes_this_rtt := 0 }

/-- Embeds `ReliableServer._inflight_bytes`. -/
def inflightBytes (infl : List Seg) : ℕ :=
  (infl.map (fun g => g.payload.length)).sum

/-- Embeds `ReliableServer._get_current_window`: `int(self.cwnd)`. -/
def getCurrentWindow (st : SenderState) : ℤ := pyInt st.cwnd

/-- Embeds `ReliableServer._can_transmit`. -/
def canTransmit (st : SenderState) (n : ℕ) : Bool :=
  decide ((inflightBytes st.inflight + n : ℤ) ≤ getCurrentWindow st)

/-- Embeds `ReliableServer._record_transmit`: refresh `last_sent` when the
sequence is already in flight, otherwise insert a fresh entry with
`last_sent = first_sent = now`. -/
def recordTransmit (seq : ℕ) (data : List ℕ) (now : ℚ) (infl : List Seg) :
    List Seg :=
  if infl.any (fun g => g.seq = seq) then
    infl.map (fun g => if g.seq = seq then { g with last_sent := now } else g)
  else
    infl ++ [{ seq := seq, payload := data, last_sent := now, first_sent := now }]

/-- Embeds `ReliableServer._is_sacked`: the segment is fully inside some
recorded SACK block. -/
def isSacked (blocks : List (ℕ × ℕ)) (seq size : ℕ) : Bool :=
  blocks.any (fun b => decide (b.1 ≤ seq ∧ seq + size ≤ b.2))

/-- The RTT samples taken inside the new-ACK loop of `_mark_ack`, in
iteration order: one per cumulatively acknowledged in-flight segment that
was sent exactly once (`last_sent == first_sent`), each `now - first_sent`. -/
def ackSamples (ack : ℕ) (now : ℚ) (infl : List Seg) : List ℚ :=
  infl.filterMap (fun g =>
    if g.seq + g.payload.length ≤ ack ∧ g.last_sent = g.first_sent
    then some (now - g.first_sent) else none)

/-- A segment removed by the new-ACK loop of `_mark_ack`: cumulatively
acknowledged or fully covered by a recorded SACK block. -/
def ackRemoves (blocks : List (ℕ × ℕ)) (ack : ℕ) (g : Seg) : Bool :=
  decide (g.seq + g.payload.length ≤ ack) || isSacked blocks g.seq g.payload.length

/-- Embeds `ReliableServer._mark_ack`: record the carried SACK blocks, drop
stale ACKs, count duplicates (signalling fast retransmit exactly on the
third unless the base segment is SACK-covered), and on a new ACK remove
acknowledged segments, sample RTTs, grow `cwnd` and advance the base. -/
def markAck (ack : ℕ) (sacks : Option (List (ℕ × ℕ))) (now : ℚ)
    (st : SenderState) : SenderState × Option ℕ × Bool :=
  let st1 := match sacks with
    | some l => { st with sack_blocks := l }
    | none => st
  if ack < st1.base then (st1, none, false)
  else if ack = st1.last_ack then
    let st2 := { st1 with dup_count := st1.dup_count + 1 }
    if st2.dup_count = 3 then
      let st3 := onFastRetransmit st2
      match st3.inflight.find? (fun g => g.seq = st3.base) with
      | some g =>
          if isSacked st3.sack_blocks st3.base g.payload.length
          then (st3, none, false)
          else (st3, some st3.base, false)
      | none => (st3, none, false)
    else (st2, none, false)
  else if st1.base < ack then
    let samples := ackSamples ack now st1.inflight
    let bytesAcked := ((st1.inflight.filter (ackRemoves st1.sack_blocks ack)).map
      (fun g => g.payload.length)).sum
    let keep := st1.inflight.filter (fun g => ! ackRemoves st1.sack_blocks ack g)
    let st2 := samples.foldl (fun s x => observeRtt x s) st1
    let st3 := { st2 with inflight := keep }
    let st4 := if 0 < bytesAcked then onNewAck bytesAcked st3 else st3
    let st5 := { st4 with
                 base := ack, last_ack := ack, dup_count := 0,
                 sack_blocks := st4.sack_blocks.filter (fun b => ack < b.2) }
    (st5, none, true)
  else (st1, none, false)

/-- Embeds `ReliableServer._detect_timeouts`: sequences whose retransmission
timer expired and that are not covered by a SACK block. -/
def detectTimeouts (now : ℚ) (st : SenderState) : List ℕ :=
  st.inflight.filterMap (fun g =>
    if st.rto < now - g.last_sent ∧ isSacked st.sack_blocks g.seq g.payload.length = false
    then some g.seq else none)

/-- One iteration of the new-data loop of `_transfer_loop`: cut the next
chunk, send it, record the transmission, advance `next_seq`. -/
def sendNew (stream : List ℕ) (now : ℚ) (st : SenderState) : SenderState :=
  let toSend := min (stream.length - st.next_seq) DATA_PAYLOAD
  let chunk := (stream.drop st.next_seq).take toSend
  { st with inflight := recordTransmit st.next_seq chunk now st.inflight,
            next_seq := st.next_seq + chunk.length }

/-- The RTO step of `_transfer_loop`: when timers expired, apply the
timeout congestion event once, then retransmit the earliest expired
segment (refreshing its `last_sent`). -/
def timeoutStep (now : ℚ) (st : SenderState) : SenderState :=
  let expired := detectTimeouts now st
  if expired = [] then st
  else
    let st1 := onTimeout st
    match expired.min? with
    | some seq =>
        match st1.inflight.find? (fun g => g.seq = seq) with
        | some g =>
            { st1 with inflight := recordTransmit seq g.payload now st1.inflight }
        | none => st1
    | none => st1

/-- The ACK-reader step (`_ack_reader`): feed the decoded ACK to
`_mark_ack` and, when fast retransmission is requested, resend the base
segment (refreshing its `last_sent`). -/
def ackStep (ack : ℕ) (sacks : List (ℕ × ℕ)) (now : ℚ) (st : SenderState) :
    SenderState :=
  let r := markAck ack (some sacks) now st
  match r.2.1 with
  | some fseq =>
      match r.1.inflight.find? (fun g => g.seq = fseq) with
      | some g =>
          { r.1 with inflight := recordTransmit fseq g.payload now r.1.inflight }
      | none => r.1
  | none => r.1

/-- A step of the Variant B sender: send one window-gated chunk, process
one received ACK, or handle an expired retransmission timer. -/
inductive BStep (stream : List ℕ) : SenderState → SenderState → Prop
  | send (st : SenderState) (now : ℚ)
      (h1 : st.next_seq < stream.length)
      (h2 : canTransmit st (min (stream.length - st.next_seq) DATA_PAYLOAD) = true) :
      BStep stream st (sendNew stream now st)
  | ack (st : SenderState) (a : ℕ) (sacks : List (ℕ × ℕ)) (now : ℚ) :
      BStep stream st (ackStep a sacks now st)
  | timeout (st : SenderState) (now : ℚ)
      (h : detectTimeouts now st ≠ []) :
      BStep stream st (timeoutStep now st)

/-- States of the Variant B sender reachable from the initial state. -/
inductive ReachB (stream : List ℕ) : SenderState → Prop
  | init : ReachB stream initSender
  | step {s s' : SenderState} : ReachB stream s → BStep stream s s' →
      ReachB stream s'

def c1Stream : List ℕ := List.replicate 2460 0

theorem c1Stream_length : c1Stream.length = 2460 := by
  rw [c1Stream, List.length_replicate]

def c1Chunk0 : List ℕ := c1Stream.take 1180
def c1Chunk1 : List ℕ := (c1Stream.drop 1180).take 1180
def c1Chunk2 : List ℕ := (c1Stream.drop 2360).take 100

theorem c1Chunk0_length : c1Chunk0.length = 1180 := by
  simp [c1Chunk0, c1Stream_length]
theorem c1Chunk1_length : c1Chunk1.length = 1180 := by
  simp [c1Chunk1, c1Stream_length]
theorem c1Chunk2_length : c1Chunk2.length = 100 := by
  simp [c1Chunk2, c1Stream_length]

def c1m1 (p0 : List ℕ) : SenderState :=
  { cwnd := 1200, ssthresh := 1200000, in_slow_start := true,
    acked_bytes_this_rtt := 0,
    inflight := [{ seq := 0, payload := p0, last_sent := 0, first_sent := 0 }],
    base := 0, next_seq := 1180, sack_blocks := [], dup_count := 0,
    last_ack := 0, rtt_estimate := none, rtt_dev := none, rto := 1 }

def c1m2 : SenderState :=
  { cwnd := 2380, ssthresh := 1200000, in_slow_start := true,
    acked_bytes_this_rtt := 0, inflight := [], base := 1180, next_seq := 1180,
    sack_blocks := [], dup_count := 0, last_ack := 1180,
    rtt_estimate := some 1, rtt_dev := some (1/2), rto := 3 }

def c1m3 (p1 : List ℕ) : SenderState :=
  { c1m2 with
    inflight := [{ seq := 1180, payload := p1, last_sent := 2, first_sent := 2 }],
    next_seq := 2360 }

def c1m4 (p1 p2 : List ℕ) : SenderState :=
  { c1m2 with
    inflight := [{ seq := 1180, payload := p1, last_sent := 2, first_sent := 2 },
                 { seq := 2360, payload := p2, last_sent := 3, first_sent := 3 }],
    next_seq := 2460 }

def c1m5 (p1 p2 : List ℕ) : SenderState :=
  { cwnd := 1200, ssthresh := 2400, in_slow_start := true,
    acked_bytes_this_rtt := 0,
    inflight := [{ seq := 1180, payload := p1, last_sent := 10, first_sent := 2 },
                 { seq := 2360, payload := p2, last_sent := 3, first_sent := 3 }],
    base := 1180, next_seq := 2460, sack_blocks := [], dup_count := 0,
    last_ack := 1180, rtt_estimate := some 1, rtt_dev := some (1/2), rto := 3 }

theorem c1_e1 : sendNew c1Stream 0 initSender = c1m1 c1Chunk0 := by
  simp [sendNew, initSender, recordTransmit, c1m1, c1Stream_length,
        DATA_PAYLOAD, MSS, UDP_MAX, HEADER_LEN, c1Chunk0]
  norm_num

theorem c1_e2 (p0 : List ℕ) (hp0 : p0.length = 1180) :
    ackStep 1180 [] 1 (c1m1 p0) = c1m2 := by
  simp [ackStep, markAck, c1m1, c1m2, ackSamples, ackRemoves, isSacked,
        observeRtt, onNewAck, inflightBytes, hp0, MSS, UDP_MAX, HEADER_LEN,
        BETA, ALPHA]
  norm_num

theorem c1_e3 : sendNew c1Stream 2 c1m2 = c1m3 c1Chunk1 := by
  simp [sendNew, c1m2, c1m3, recordTransmit, c1Stream_length,
        DATA_PAYLOAD, MSS, UDP_MAX, HEADER_LEN, c1Chunk1, c1Chunk1_length]

theorem c1_e4 (p1 : List ℕ) :
    sendNew c1Stream 3 (c1m3 p1) = c1m4 p1 c1Chunk2 := by
  simp [sendNew, c1m2, c1m3, c1m4, recordTransmit, c1Stream_length,
        DATA_PAYLOAD, MSS, UDP_MAX, HEADER_LEN, c1Chunk2, c1Chunk2_length]

theorem c1_e5 (p1 p2 : List ℕ) :
    timeoutStep 10 (c1m4 p1 p2) = c1m5 p1 p2 := by
  have hdet : detectTimeouts 10 (c1m4 p1 p2) = [1180, 2360] := by
    simp [detectTimeouts, c1m4, c1m2, isSacked]
    norm_num [List.filterMap_cons]
  simp only [timeoutStep, hdet]
  rw [if_neg (by simp)]
  norm_num [List.min?, List.find?, c1m4, c1m2, c1m5, onTimeout, recordTransmit,
            MSS, UDP_MAX]

theorem c1_det (p1 p2 : List ℕ) :
    detectTimeouts 10 (c1m4 p1 p2) = [1180, 2360] := by
  simp [detectTimeouts, c1m4, c1m2, isSacked]
  norm_num [List.filterMap_cons]

theorem c1_g11 : initSender.next_seq < c1Stream.length := by
  simp [initSender, c1Stream_length]

theorem c1_g12 :
    canTransmit initSender
      (min (c1Stream.length - initSender.next_seq) DATA_PAYLOAD) = true := by
  simp [canTransmit, initSender, inflightBytes, getCurrentWindow,
        c1Stream_length, DATA_PAYLOAD, MSS, UDP_MAX, HEADER_LEN]
  decide

theorem c1_g21 : c1m2.next_seq < c1Stream.length := by
  simp [c1m2, c1Stream_length]

theorem c1_g22 :
    canTransmit c1m2
      (min (c1Stream.length - c1m2.next_seq) DATA_PAYLOAD) = true := by
  simp [canTransmit, c1m2, inflightBytes, getCurrentWindow,
        c1Stream_length, DATA_PAYLOAD, MSS, UDP_MAX, HEADER_LEN]
  decide

theorem c1_g31 (p1 : List ℕ) : (c1m3 p1).next_seq < c1Stream.length := by
  simp [c1m3, c1m2, c1Stream_length]

theorem c1_g32 (p1 : List ℕ) (hp1 : p1.length = 1180) :
    canTransmit (c1m3 p1)
      (min (c1Stream.length - (c1m3 p1).next_seq) DATA_PAYLOAD) = true := by
  simp [canTransmit, c1m3, c1m2, inflightBytes, getCurrentWindow, hp1,
        c1Stream_length, DATA_PAYLOAD, MSS, UDP_MAX, HEADER_LEN]
  decide

theorem c1_g5 (p1 p2 : List ℕ) : detectTimeouts 10 (c1m4 p1 p2) ≠ [] := by
  rw [c1_det]
  simp

/-- The concrete trace state of the counterexample to C1: send 1180 B,
process the ACK for it (`cwnd` grows to 2380), send 1180 B and 100 B
more, then handle a retransmission timeout. -/
def c1Bad : SenderState :=
  timeoutStep 10 (sendNew c1Stream 3 (sendNew c1Stream 2
    (ackStep 1180 [] 1 (sendNew c1Stream 0 initSender))))

theorem c1Bad_eq : c1Bad = c1m5 c1Chunk1 c1Chunk2 := by
  show timeoutStep 10 (sendNew c1Stream 3 (sendNew c1Stream 2
    (ackStep 1180 [] 1 (sendNew c1Stream 0 initSender)))) = c1m5 c1Chunk1 c1Chunk2
  rw [c1_e1, c1_e2 _ c1Chunk0_length, c1_e3, c1_e4 _, c1_e5 _ _]

theorem c1Bad_reachable : ReachB c1Stream c1Bad := by
  have r1 : ReachB c1Stream (c1m1 c1Chunk0) := by
    have := ReachB.step ReachB.init (BStep.send initSender 0 c1_g11 c1_g12)
    rwa [c1_e1] at this
  have r2 : ReachB c1Stream c1m2 := by
    have := ReachB.step r1 (BStep.ack (c1m1 c1Chunk0) 1180 [] 1)
    rwa [c1_e2 _ c1Chunk0_length] at this
  have r3 : ReachB c1Stream (c1m3 c1Chunk1) := by
    have := ReachB.step r2 (BStep.send c1m2 2 c1_g21 c1_g22)
    rwa [c1_e3] at this
  have r4 : ReachB c1Stream (c1m4 c1Chunk1 c1Chunk2) := by
    have := ReachB.step r3 (BStep.send (c1m3 c1Chunk1) 3 (c1_g31 _)
      (c1_g32 _ c1Chunk1_length))
    rwa [c1_e4 _] at this
  have r5 := ReachB.step r4
    (BStep.timeout (c1m4 c1Chunk1 c1Chunk2) 10 (c1_g5 _ _))
  rw [c1Bad_eq, ← c1_e5 c1Chunk1 c1Chunk2]
  exact r5

/-- Counterexample to claim C1: the Variant B sender state `c1Bad` is
reachable, and there its in-flight byte count (1280) exceeds the
effective window `int(cwnd)` (1200): the timeout event collapsed `cwnd`
to one MSS without shrinking the in-flight set. -/
theorem C1_window_bound_cex :
    ReachB c1Stream c1Bad ∧
    ¬ ((inflightBytes c1Bad.inflight : ℤ) ≤ getCurrentWindow c1Bad) := by
  refine ⟨c1Bad_reachable, ?_⟩
  rw [c1Bad_eq]
  simp [c1m5, inflightBytes, getCurrentWindow, c1Chunk1_length,
        c1Chunk2_length]
  decide

theorem inflightBytes_map_update (seq : ℕ) (now : ℚ) (infl : List Seg) :
    inflightBytes (infl.map (fun g =>
      if g.seq = seq then { g with last_sent := now } else g)) =
    inflightBytes infl := by
  induction infl with
  | nil => rfl
  | cons g tl ih =>
      simp only [List.map_cons, inflightBytes, List.sum_cons] at ih ⊢
      by_cases hg : g.seq = seq
      · rw [if_pos hg, ih]
      · rw [if_neg hg, ih]

theorem inflightBytes_recordTransmit_le (seq : ℕ) (d : List ℕ) (now : ℚ)
    (infl : List Seg) :
    inflightBytes (recordTransmit seq d now infl) ≤
      inflightBytes infl + d.length := by
  rw [recordTransmit]
  by_cases ha : (infl.any (fun g => g.seq = seq)) = true
  · rw [if_pos ha, inflightBytes_map_update]
    omega
  · rw [if_neg ha]
    simp [inflightBytes]

/-- Claim C1 (amended): new transmission is gated by `_can_transmit`, so
immediately after every window-gated send the Variant B sender satisfies
`inflight_bytes ≤ int(cwnd)`; the bound is however not maintained across
the congestion events that shrink `cwnd`: the counterexample shows a
reachable state where the timeout collapse of `cwnd` to `MSS` leaves the
unchanged in-flight byte count above the window. -/
theorem C1_window_bound_after_send (stream : List ℕ) (now : ℚ)
    (st : SenderState)
    (h : canTransmit st (min (stream.length - st.next_seq) DATA_PAYLOAD) = true) :
    (inflightBytes (sendNew stream now st).inflight : ℤ) ≤
      getCurrentWindow (sendNew stream now st) := by
  rw [canTransmit, decide_eq_true_eq] at h
  simp only [sendNew]
  have hcl : ((stream.drop st.next_seq).take
      (min (stream.length - st.next_seq) DATA_PAYLOAD)).length ≤
      min (stream.length - st.next_seq) DATA_PAYLOAD := by
    simp [List.length_take]
  have hb := inflightBytes_recordTransmit_le st.next_seq
    ((stream.drop st.next_seq).take (min (stream.length - st.next_seq) DATA_PAYLOAD))
    now st.inflight
  show (inflightBytes (recordTransmit st.next_seq _ now st.inflight) : ℤ) ≤
    getCurrentWindow st
  omega

/-- Witness for the amended C1: the initial state may send a full chunk
and the bound holds afterwards. -/
theorem C1_window_bound_after_send_witness :
    (inflightBytes (sendNew c1Stream 0 initSender).inflight : ℤ) ≤
      getCurrentWindow (sendNew c1Stream 0 initSender) :=
  C1_window_bound_after_send c1Stream 0 initSender c1_g12

/-- Claim C3: the Variant B congestion-controller events behave as
specified: a new ACK of `b > 0` bytes adds `b` to `cwnd` during slow
start and leaves slow start once `cwnd >= ssthresh`, adds
`(2*MSS*MSS)/cwnd` during congestion avoidance, both capped at
`10000*MSS`; fast retransmit sets `ssthresh := max(cwnd/2, 2*MSS)`,
`cwnd := ssthresh` and leaves slow start; timeout sets the same
`ssthresh`, collapses `cwnd` to `MSS` and re-enters slow start. -/
theorem C3_congestion_events (st : SenderState) (b : ℕ) (hb : 0 < b) :
    (st.in_slow_start = true →
      (onNewAck b st).cwnd = min (st.cwnd + (b : ℚ)) (10000 * (MSS : ℚ)) ∧
      ((onNewAck b st).in_slow_start = false ↔ st.ssthresh ≤ st.cwnd + (b : ℚ))) ∧
    (st.in_slow_start = false →
      (onNewAck b st).cwnd =
        min (st.cwnd + (2 * (MSS : ℚ) * MSS) / st.cwnd) (10000 * (MSS : ℚ)) ∧
      (onNewAck b st).in_slow_start = false) ∧
    ((onFastRetransmit st).ssthresh = max (st.cwnd / 2) (2 * (MSS : ℚ)) ∧
     (onFastRetransmit st).cwnd = max (st.cwnd / 2) (2 * (MSS : ℚ)) ∧
     (onFastRetransmit st).in_slow_start = false) ∧
    ((onTimeout st).ssthresh = max (st.cwnd / 2) (2 * (MSS : ℚ)) ∧
     (onTimeout st).cwnd = (MSS : ℚ) ∧
     (onTimeout st).in_slow_start = true) := by
  refine ⟨?_, ?_, ?_, ?_⟩
  · intro hs
    constructor
    · simp only [onNewAck, hs, if_true]
    · simp only [onNewAck, hs, if_true]
      simp [not_lt]
  · intro hs
    refine ⟨?_, ?_⟩
    · simp only [onNewAck, hs, Bool.false_eq_true, if_false]
      congr 1
      ring
    · simp [onNewAck, hs]
  · simp [onFastRetransmit]
  · simp [onTimeout]

/-- Claim C2: when an ACK whose cumulative value equals the current send
base arrives (the sender keeps `last_ack = base` between window moves),
the duplicate-ACK counter is incremented, and fast retransmission of the
base sequence is signalled exactly on the third duplicate — not on later
ones — unless the base segment is fully covered by a currently recorded
SACK block, in which case no retransmission is signalled. -/
theorem C2_dup_ack (st : SenderState) (sacks : Option (List (ℕ × ℕ)))
    (now : ℚ) (g : Seg)
    (hlb : st.last_ack = st.base)
    (hg : st.inflight.find? (fun x => x.seq = st.base) = some g) :
    (markAck st.base sacks now st).1.dup_count = st.dup_count + 1 ∧
    ((markAck st.base sacks now st).2.1 = some st.base ↔
      (st.dup_count + 1 = 3 ∧
       isSacked (sacks.getD st.sack_blocks) st.base g.payload.length = false)) := by
  cases sacks with
  | none =>
      simp only [markAck, Option.getD]
      rw [if_neg (lt_irrefl st.base), if_pos hlb.symm]
      by_cases h3 : st.dup_count + 1 = 3
      · simp only [h3, eq_self_iff_true, if_true, onFastRetransmit]
        rw [hg]
        by_cases hsk : isSacked st.sack_blocks st.base g.payload.length = true
        · simp [hsk, h3]
        · simp only [Bool.not_eq_true] at hsk
          simp [hsk, h3]
      · rw [if_neg h3]
        simp [h3]
  | some l =>
      simp only [markAck, Option.getD]
      rw [if_neg (lt_irrefl st.base), if_pos hlb.symm]
      by_cases h3 : st.dup_count + 1 = 3
      · simp only [h3, eq_self_iff_true, if_true, onFastRetransmit]
        rw [hg]
        by_cases hsk : isSacked l st.base g.payload.length = true
        · simp [hsk, h3]
        · simp only [Bool.not_eq_true] at hsk
          simp [hsk, h3]
      · rw [if_neg h3]
        simp [h3]

theorem ackSamples_eq_filter_map (ack : ℕ) (now : ℚ) (infl : List Seg) :
    ackSamples ack now infl =
      (infl.filter (fun g => decide (g.seq + g.payload.length ≤ ack) &&
        decide (g.last_sent = g.first_sent))).map (fun g => now - g.first_sent) := by
  induction infl with
  | nil => rfl
  | cons g tl ih =>
      by_cases hc : g.seq + g.payload.length ≤ ack ∧ g.last_sent = g.first_sent
      · rw [ackSamples, List.filterMap_cons, if_pos hc,
            List.filter_cons_of_pos (by simp [hc.1, hc.2]), List.map_cons]
        rw [ackSamples] at ih
        rw [ih]
      · rw [ackSamples, List.filterMap_cons, if_neg hc,
            List.filter_cons_of_neg (by simp [not_and_or] at hc ⊢; tauto)]
        rw [ackSamples] at ih
        rw [ih]

theorem ackSamples_append (ack : ℕ) (now : ℚ) (l1 l2 : List Seg) :
    ackSamples ack now (l1 ++ l2) =
      ackSamples ack now l1 ++ ackSamples ack now l2 := by
  simp [ackSamples]

theorem ackSamples_not_single (ack : ℕ) (now : ℚ) (g : Seg)
    (h : g.last_sent ≠ g.first_sent) : ackSamples ack now [g] = [] := by
  simp [ackSamples, h]

/-- Claim C4 (Karn's rule): the new-ACK loop samples RTT exactly for the
cumulatively acknowledged segments whose `last_sent` equals their
`first_sent` (sent exactly once); a retransmission of a recorded segment
refreshes `last_sent` while `first_sent` stays frozen, so a segment sent
at two distinct instants contributes no RTT sample. -/
theorem C4_karn (ack : ℕ) (now t1 t2 : ℚ) (seq : ℕ) (d : List ℕ)
    (infl : List Seg)
    (hfresh : infl.any (fun g => g.seq = seq) = false)
    (ht : t1 ≠ t2) :
    ackSamples ack now infl =
      (infl.filter (fun g => decide (g.seq + g.payload.length ≤ ack) &&
        decide (g.last_sent = g.first_sent))).map (fun g => now - g.first_sent) ∧
    recordTransmit seq d t2 (recordTransmit seq d t1 infl) =
      infl ++ [{ seq := seq, payload := d, last_sent := t2, first_sent := t1 }] ∧
    ackSamples ack now (recordTransmit seq d t2 (recordTransmit seq d t1 infl)) =
      ackSamples ack now infl := by
  have hall : ∀ g ∈ infl, ¬ g.seq = seq := by
    intro g hgm hcon
    have : (infl.any fun x => decide (x.seq = seq)) = true :=
      List.any_eq_true.2 ⟨g, hgm, by simp [hcon]⟩
    rw [hfresh] at this
    exact Bool.false_ne_true this
  have h2 : recordTransmit seq d t2 (recordTransmit seq d t1 infl) =
      infl ++ [{ seq := seq, payload := d, last_sent := t2, first_sent := t1 }] := by
    have h1 : recordTransmit seq d t1 infl =
        infl ++ [{ seq := seq, payload := d, last_sent := t1, first_sent := t1 }] := by
      rw [recordTransmit, if_neg (by simp [hfresh])]
    rw [h1, recordTransmit, if_pos (by simp), List.map_append]
    congr 1
    · conv_rhs => rw [← List.map_id infl]
      apply List.map_congr_left
      intro g hgm
      simp [hall g hgm]
    · simp
  refine ⟨ackSamples_eq_filter_map ack now infl, h2, ?_⟩
  have ht2 : t2 ≠ t1 := fun hh => ht hh.symm
  rw [h2, ackSamples_append, ackSamples_not_single ack now _ ht2,
      List.append_nil]

/-- Claim C6 (amended): an ACK whose cumulative value is strictly below
`send_base` is dropped — the inflight table, `send_base`, the duplicate
counter, the congestion state and the RTO estimator are unchanged — but
the SACK registry is overwritten with the blocks carried by the ACK,
because `_mark_ack` records them before the staleness check. -/
theorem C6_stale_ack (st : SenderState) (ack : ℕ) (sacks : List (ℕ × ℕ))
    (now : ℚ) (h : ack < st.base) :
    markAck ack (some sacks) now st =
      ({ st with sack_blocks := sacks }, none, false) := by
  simp only [markAck]
  rw [if_pos h]

/-- A sender state whose window base has already advanced to 100. -/
def c6State : SenderState :=
  { initSender with base := 100, last_ack := 100 }

/-- Counterexample to claim C6 as stated: a stale ACK (50 < base = 100)
carrying a SACK block does change the sender's state — the SACK registry
is overwritten. -/
theorem C6_stale_ack_cex :
    (markAck 50 (some [(200, 300)]) 0 c6State).1.sack_blocks ≠
      c6State.sack_blocks := by
  decide

/-- Witness for the amended C6 at a concrete stale ACK. -/
theorem C6_stale_ack_witness :
    markAck 50 (some [(200, 300)]) 0 c6State =
      ({ c6State with sack_blocks := [(200, 300)] }, none, false) :=
  C6_stale_ack c6State 50 [(200, 300)] 0 (by decide)

/-- A sender state with one 1-byte segment in flight at the base and two
duplicate ACKs already counted. -/
def c2State : SenderState :=
  { initSender with
    inflight := [{ seq := 0, payload := [7], last_sent := 0, first_sent := 0 }],
    dup_count := 2 }

/-- Witness for C2: the third duplicate ACK at the base signals fast
retransmission of the base segment when no SACK block covers it. -/
theorem C2_dup_ack_witness :
    (markAck c2State.base (some []) 1 c2State).1.dup_count =
      c2State.dup_count + 1 ∧
    ((markAck c2State.base (some []) 1 c2State).2.1 = some c2State.base ↔
      (c2State.dup_count + 1 = 3 ∧
       isSacked ((some ([] : List (ℕ × ℕ))).getD c2State.sack_blocks)
         c2State.base
         (({ seq := 0, payload := [7], last_sent := 0, first_sent := 0 } : Seg)).payload.length
         = false)) :=
  C2_dup_ack c2State (some []) 1
    { seq := 0, payload := [7], last_sent := 0, first_sent := 0 }
    (by decide) (by decide)

/-- Witness for C3: the timeout event at the initial state behaves as
specified. -/
theorem C3_congestion_events_witness :
    (onTimeout initSender).ssthresh =
      max (initSender.cwnd / 2) (2 * (MSS : ℚ)) ∧
    (onTimeout initSender).cwnd = (MSS : ℚ) ∧
    (onTimeout initSender).in_slow_start = true :=
  (C3_congestion_events initSender 5 (by decide)).2.2.2

/-- Witness for C4 at a concrete doubly-sent segment: its two recorded
instants differ, so it contributes no RTT sample. -/
theorem C4_karn_witness :
    ackSamples 7 3 (recordTransmit 5 [9] 2 (recordTransmit 5 [9] 1 [])) =
      ackSamples 7 3 [] :=
  (C4_karn 7 3 1 2 5 [9] [] (by decide) (by decide)).2.2

/-- The concrete data packet used in the C5 witness: sequence 0, the
two stream bytes `[5, 6]` as payload. -/
def c5Pkt : List ℕ := [0, 0, 0, 0] ++ List.replicate 16 0 ++ [5, 6]

/-- Witness for C5: processing the packet for offset 0 of the stream
`[5, 6]` from the initial receiver state keeps all invariants. -/
theorem C5_receiver_prefix_witness :
    recvInv [5, 6] (handlePacketRecv c5Pkt initRecv).1 ∧
    (handlePacketRecv c5Pkt initRecv).1.out.length =
      (handlePacketRecv c5Pkt initRecv).1.next_expected ∧
    initRecv.next_expected ≤ (handlePacketRecv c5Pkt initRecv).1.next_expected ∧
    (handlePacketRecv c5Pkt initRecv).1.out.take initRecv.out.length =
      initRecv.out :=
  C5_receiver_prefix [5, 6] c5Pkt initRecv 0 [5, 6] false
    ⟨rfl, by decide, by intro e he; simp [initRecv] at he⟩
    (by decide) (fun _ => by decide)

/- ------------------------------------------------------------------ -/
/- Variant A sender (part1/p1_server.py)                               -/
/- ------------------------------------------------------------------ -/

/-- Constant `DATA_SIZE = PACKET_SIZE - HEADER_SIZE = 1180` of
p1_server.py. -/
def DATA_SIZE : ℕ := 1180

/-- Window state of `ReliableUDPServer.send_file`: the first
unacknowledged byte, the next sequence number to send, and the
individually acknowledged sequence numbers. -/
structure SRState where
  send_base : ℕ
  next_seq : ℕ
  acked : List ℕ
  deriving DecidableEq, Repr

/-- Number of chunks a file of `n` bytes is split into
(`range(0, n, DATA_SIZE)`). -/
def numChunks (n : ℕ) : ℕ := (n + DATA_SIZE - 1) / DATA_SIZE

/-- Embeds `len(chunks[idx])` for a file of `n` bytes. -/
def chunkLen (n idx : ℕ) : ℕ := min DATA_SIZE (n - DATA_SIZE * idx)

/-- The advance amount of the window-sliding loop of `send_file`:
`len(chunks[base // DATA_SIZE])` when the index is in range, else
`DATA_SIZE`. -/
def advanceBy (n b : ℕ) : ℕ :=
  if b / DATA_SIZE < numChunks n then chunkLen n (b / DATA_SIZE) else DATA_SIZE

theorem advanceBy_pos (n b : ℕ) : 0 < advanceBy n b := by
  have hD : DATA_SIZE = 1180 := rfl
  rw [advanceBy]
  split
  · rename_i h
    rw [chunkLen]
    rw [numChunks] at h
    rw [hD] at h ⊢
    omega
  · decide

theorem length_filter_le_of_imp (p q : ℕ → Bool)
    (h : ∀ x, p x = true → q x = true) :
    ∀ l : List ℕ, (l.filter p).length ≤ (l.filter q).length := by
  intro l
  induction l with
  | nil => simp
  | cons x tl ih =>
      by_cases hp : p x = true
      · rw [List.filter_cons_of_pos hp, List.filter_cons_of_pos (h x hp)]
        simpa using ih
      · rw [List.filter_cons_of_neg (by simpa using hp)]
        by_cases hq : q x = true
        · rw [List.filter_cons_of_pos hq]
          exact le_trans ih (by simp)
        · rw [List.filter_cons_of_neg (by simpa using hq)]
          exact ih

theorem length_filter_slide_lt {b a : ℕ} (ha : 1 ≤ a) :
    ∀ {l : List ℕ}, b ∈ l →
    (l.filter (fun x => b + a ≤ x)).length <
      (l.filter (fun x => b ≤ x)).length := by
  intro l
  induction l with
  | nil => intro hb; simp at hb
  | cons x tl ih =>
      intro hb
      have hmono := length_filter_le_of_imp
        (fun x => decide (b + a ≤ x)) (fun x => decide (b ≤ x))
        (by intro x hx; simp at hx ⊢; omega) tl
      rcases List.mem_cons.1 hb with rfl | hmem
      · rw [List.filter_cons_of_neg (by simp; omega),
            List.filter_cons_of_pos (by simp)]
        have := hmono
        simp only [List.length_cons]
        omega
      · by_cases hp : (b + a ≤ x)
        · rw [List.filter_cons_of_pos (by simpa using hp),
              List.filter_cons_of_pos (by simp; omega)]
          simpa using ih hmem
        · rw [List.filter_cons_of_neg (by simpa using hp)]
          by_cases hq : (b ≤ x)
          · rw [List.filter_cons_of_pos (by simpa using hq)]
            have := ih hmem
            simp only [List.length_cons]
            omega
          · rw [List.filter_cons_of_neg (by simpa using hq)]
            exact ih hmem

/-- The window-sliding loop of `send_file`: while `send_base` is
individually acknowledged, advance it by the length of its chunk. -/
def slide (n : ℕ) (acked : List ℕ) (b : ℕ) : ℕ :=
  if b ∈ acked then slide n acked (b + advanceBy n b) else b
termination_by (acked.filter (fun x => b ≤ x)).length
decreasing_by
  exact length_filter_slide_lt (advanceBy_pos n b) (by assumption)

theorem slide_ge (n : ℕ) (acked : List ℕ) : ∀ b : ℕ, b ≤ slide n acked b := by
  intro b
  generalize hm : (acked.filter (fun x => b ≤ x)).length = m
  induction m using Nat.strong_induction_on generalizing b with
  | _ m ih =>
      rw [slide]
      by_cases hb : b ∈ acked
      · rw [if_pos hb]
        have hlt := length_filter_slide_lt (advanceBy_pos n b) hb
        rw [hm] at hlt
        have := ih _ hlt (b + advanceBy n b) rfl
        omega
      · rw [if_neg hb]

/-- The ACK-receive branch of `send_file`: record an unseen individual
ACK and slide the window base over contiguous acknowledged chunks. -/
def ackSR (n : ℕ) (a : ℕ) (st : SRState) : SRState :=
  let acked := if a ∈ st.acked then st.acked else st.acked ++ [a]
  { send_base := slide n acked st.send_base, next_seq := st.next_seq,
    acked := acked }

/-- A step of the Variant A sender: send the next chunk when the window
check `next_seq - send_base < sws` passes (checked before the whole
chunk is appended), or process one individual ACK. -/
inductive SRStep (sws n : ℕ) : SRState → SRState → Prop
  | send (st : SRState)
      (h1 : st.next_seq < n)
      (h2 : (st.next_seq : ℤ) - st.send_base < sws)
      (h3 : st.next_seq / DATA_SIZE < numChunks n) :
      SRStep sws n st
        { st with next_seq := st.next_seq + chunkLen n (st.next_seq / DATA_SIZE) }
  | ack (st : SRState) (a : ℕ) : SRStep sws n st (ackSR n a st)

/-- Variant A sender states reachable from the start of `send_file`. -/
inductive ReachSR (sws n : ℕ) : SRState → Prop
  | init : ReachSR sws n ⟨0, 0, []⟩
  | step {s s'} : ReachSR sws n s → SRStep sws n s s' → ReachSR sws n s'

/-- A reachable Variant A state with `next_seq - send_base > SWS`. -/
def c8Bad : SRState := ⟨0, 1180, []⟩

/-- Counterexample to claim C8: with SWS = 1000 bytes and an 1180-byte
file, the very first send is admitted by the strict window check
(`0 - 0 < 1000`) and advances `next_seq` by a whole 1180-byte chunk, so
`next_seq - send_base = 1180 > SWS`. -/
theorem C8_window_cex :
    ReachSR 1000 1180 c8Bad ∧
    ¬ ((c8Bad.next_seq : ℤ) - c8Bad.send_base ≤ 1000) := by
  constructor
  · have h := @SRStep.send 1000 1180 ⟨0, 0, []⟩
      (by decide) (by decide) (by decide)
    have he : ({ (⟨0, 0, []⟩ : SRState) with
        next_seq := 0 + chunkLen 1180 (0 / DATA_SIZE) }) = c8Bad := by decide
    exact he ▸ ReachSR.step ReachSR.init h
  · decide

/-- Claim C8 (amended): for the Variant A sender the difference
`next_seq - send_base` stays strictly below `SWS + DATA_SIZE` at every
reachable state; the claimed bound `≤ SWS` itself can be exceeded by up
to `DATA_SIZE - 1` bytes because the strict window check happens before
a whole chunk is appended (see the counterexample). -/
theorem C8_window_bound (sws n : ℕ) (st : SRState) (h : ReachSR sws n st) :
    (st.next_seq : ℤ) - st.send_base < sws + DATA_SIZE := by
  induction h with
  | init =>
      have hD : DATA_SIZE = 1180 := rfl
      simp
      omega
  | @step s s' hr hs ih =>
      cases hs with
      | send h1 h2 h3 =>
          have hc : chunkLen n (s.next_seq / DATA_SIZE) ≤ DATA_SIZE := by
            rw [chunkLen]
            exact min_le_left _ _
          show (↑(s.next_seq + chunkLen n (s.next_seq / DATA_SIZE)) : ℤ) -
            s.send_base < sws + DATA_SIZE
          push_cast
          omega
      | ack a =>
          have hb : s.send_base ≤ (ackSR n a s).send_base := by
            simp only [ackSR]
            exact slide_ge n _ s.send_base
          have hn : (ackSR n a s).next_seq = s.next_seq := rfl
          rw [hn]
          have hb' : (s.send_base : ℤ) ≤ ((ackSR n a s).send_base : ℤ) := by
            exact_mod_cast hb
          omega

/-- Witness for the amended C8 at the initial state. -/
theorem C8_window_bound_witness :
    (((⟨0, 0, []⟩ : SRState)).next_seq : ℤ) -
      ((⟨0, 0, []⟩ : SRState)).send_base < 1000 + DATA_SIZE :=
  C8_window_bound 1000 1180 ⟨0, 0, []⟩ ReachSR.init

/- ------------------------------------------------------------------ -/
/- ACK decoding (claim C9)                                             -/
/- ------------------------------------------------------------------ -/

/-- Embeds `ReliableServer._decode_ack` (p2_server.py): reject only fragments
shorter than 4 bytes; read the big-endian cumulative ACK; parse the two
optional SACK blocks only when the full 20-byte header is present,
keeping a block `(start, end)` only when `start > 0` and `end > start`. -/
def decodeAck (pkt : List ℕ) : Option ℕ × List (ℕ × ℕ) :=
  if pkt.length < 4 then (none, [])
  else
    let ack := fromBE4 (pkt.take 4)
    let sl :=
      if HEADER_LEN ≤ pkt.length then
        let opt := (pkt.drop 4).take 16
        let b1s := fromBE4 (opt.take 4)
        let b1e := fromBE4 ((opt.drop 4).take 4)
        let b2s := fromBE4 ((opt.drop 8).take 4)
        let b2e := fromBE4 ((opt.drop 12).take 4)
        (if 0 < b1s ∧ b1s < b1e then [(b1s, b1e)] else []) ++
          (if 0 < b2s ∧ b2s < b2e then [(b2s, b2e)] else [])
      else []
    (some ack, sl)

/-- Embeds `ReliableUDPServer.parse_sr_ack` (p1_server.py): accept any packet
of at least 4 bytes, reading the individual acknowledged sequence. -/
def parseSrAck (pkt : List ℕ) : Option ℕ :=
  if 4 ≤ pkt.length then some (fromBE4 (pkt.take 4)) else none

/-- Counterexample to claim C9: the Variant B sender's ACK decoder does
not reject an 8-byte fragment — it returns a parsed cumulative ACK, not
the failure value. -/
theorem C9_short_fragment_cex :
    ¬ ((decodeAck [0, 0, 0, 5, 0, 0, 0, 0]).1 = none) := by
  decide

/-- Claim C9 (amended): only the receiver's data-packet parser rejects
every fragment shorter than the 20-byte header; the two senders' ACK
decoders reject only fragments shorter than 4 bytes and accept fragments
of 4 to 19 bytes as a bare cumulative ACK with no SACK blocks. -/
theorem C9_short_fragment (pkt : List ℕ) :
    (pkt.length < HEADER_LEN → parsePacket pkt = none) ∧
    (pkt.length < 4 → decodeAck pkt = (none, []) ∧ parseSrAck pkt = none) ∧
    (4 ≤ pkt.length → pkt.length < HEADER_LEN →
      decodeAck pkt = (some (fromBE4 (pkt.take 4)), []) ∧
      parseSrAck pkt = some (fromBE4 (pkt.take 4))) := by
  refine ⟨?_, ?_, ?_⟩
  · intro h
    rw [parsePacket, if_pos h]
  · intro h
    constructor
    · rw [decodeAck, if_pos h]
    · rw [parseSrAck, if_neg (by omega)]
  · intro h4 h20
    constructor
    · rw [decodeAck, if_neg (by omega)]
      simp only []
      rw [if_neg (by omega)]
    · rw [parseSrAck, if_pos h4]

/-- Witness for the amended C9 at a 3-byte and a 6-byte fragment. -/
theorem C9_short_fragment_witness :
    parsePacket [1, 2, 3] = none ∧
    (decodeAck [1, 2, 3] = (none, []) ∧ parseSrAck [1, 2, 3] = none) ∧
    (decodeAck [0, 0, 0, 5, 9, 9] =
       (some (fromBE4 ([0, 0, 0, 5, 9, 9].take 4)), []) ∧
     parseSrAck [0, 0, 0, 5, 9, 9] =
       some (fromBE4 ([0, 0, 0, 5, 9, 9].take 4))) :=
  ⟨(C9_short_fragment [1, 2, 3]).1 (by decide),
   (C9_short_fragment [1, 2, 3]).2.1 (by decide),
   (C9_short_fragment [0, 0, 0, 5, 9, 9]).2.2 (by decide) (by decide)⟩
